import Mathlib

/-!
Verification of the `gesetze_im_internet` scrape-and-segment pipeline and the
repository search contract of the `ayunis-legal-mcp` store service.

The definitions below are a shallow embedding of
`store/app/scrapers/gesetze_im_internet/gesetzte_im_internet_scraper.py`
(scrape, `_extract_sub_section`, `_extract_xml_from_zip`) together with the
parsed-XML data model (`Norm`, `Metadaten`, `Textdaten`, `TextContent`,
`FormattedText`) that the scraper consumes, and a model of the repository's
`semantic_search` operation.

Python strings are embedded as `List Char` for the internal logic; Unicode
case mapping and whitespace are restricted to their ASCII parts, which is
exact for every marker string (`"(weggefallen)"`, `"(aufgehoben)"`) these
functions compare against.
-/

namespace LegalMCP

/-- ASCII whitespace as recognised by Python's `str.strip` and the regex
class `\s` (restricted to ASCII). -/
def isPyWhitespace (c : Char) : Bool :=
  c = ' ' || c = '\t' || c = '\n' || c = '\r' || c = '\x0b' || c = '\x0c'

/-- Python `str.strip()` on a character list: drop whitespace at both ends. -/
def pyStrip (s : List Char) : List Char :=
  ((s.dropWhile isPyWhitespace).reverse.dropWhile isPyWhitespace).reverse

/-- Python `str.lower()` (ASCII case mapping). -/
def pyLower (s : List Char) : List Char :=
  s.map Char.toLower

/-- Python `haystack.startswith(prefix)`. -/
def pyStartswith (pre s : List Char) : Bool :=
  pre.isPrefixOf s

/-- Python `needle in haystack` on strings (substring containment). -/
def pyIn (needle : List Char) : List Char → Bool
  | [] => needle.isEmpty
  | c :: cs => needle.isPrefixOf (c :: cs) || pyIn needle cs

/-- Python `s.split(sep)` for a one-character separator: the list of chunks
between occurrences of `sep`; always non-empty (`"".split(c) == [""]`). -/
def pySplit (sep : Char) : List Char → List (List Char)
  | [] => [[]]
  | c :: cs =>
    if c = sep then
      [] :: pySplit sep cs
    else
      match pySplit sep cs with
      | [] => [[c]]
      | r :: rs => (c :: r) :: rs

/-- Python `sep.join(parts)`. -/
def pyJoin (sep : List Char) : List (List Char) → List Char
  | [] => []
  | [x] => x
  | x :: xs => x ++ sep ++ pyJoin sep xs

/-! ## Parsed-XML data model (`xml_parser` record types used by the scraper) -/

/-- Norm metadata: `Metadaten(jurabk, enbez, titel)`. `enbez` and `titel`
are optional in the source document. -/
structure Metadaten where
  jurabk : List String
  enbez : Option String
  titel : Option String
  deriving Repr, DecidableEq

/-- `FormattedText(content, paragraphs)`: the extracted paragraph strings. -/
structure FormattedText where
  content : String
  paragraphs : List String
  deriving Repr, DecidableEq

/-- `TextContent(formatted_text)`. -/
structure TextContent where
  formatted_text : Option FormattedText
  deriving Repr, DecidableEq

/-- `Textdaten(text)`. -/
structure Textdaten where
  text : Option TextContent
  deriving Repr, DecidableEq

/-- One `<norm>` record of the parsed document. -/
structure Norm where
  metadaten : Metadaten
  textdaten : Option Textdaten
  deriving Repr, DecidableEq

/-- The `LegalText` unit produced by the scraper.  The source field named
`section` is rendered `section'` because `section` is a Lean keyword. -/
structure LegalText where
  text : String
  code : String
  section' : String
  sub_section : String
  deriving Repr, DecidableEq

/-! ## `_extract_sub_section` -/

/-- `GesetzteImInternetScraper._extract_sub_section`:
```
if section.startswith("("):
    return section.split("(")[1].split(")")[0]
return ""
``` -/
def extract_sub_section (s : String) : String :=
  if pyStartswith "(".data s.data then
    ⟨(pySplit ')' ((pySplit '(' s.data).getD 1 [])).getD 0 []⟩
  else
    ""

/-! ## Grouping paragraphs by sub-section key

The source uses an insertion-ordered `dict[str, list[str]]`:
```
sub_section_texts: dict[str, list[str]] = {}
for p in ...paragraphs:
    sub_section = self._extract_sub_section(p)
    if sub_section not in sub_section_texts:
        sub_section_texts[sub_section] = []
    sub_section_texts[sub_section].append(p)
```
modelled as an association list preserving first-insertion key order. -/

/-- Append `p` under `key`: extend the existing entry, else add a new entry
at the end (Python dict insertion order). -/
def insertGroup (key p : String) : List (String × List String) → List (String × List String)
  | [] => [(key, [p])]
  | (k, ps) :: rest =>
    if k = key then (k, ps ++ [p]) :: rest
    else (k, ps) :: insertGroup key p rest

/-- Group the paragraphs by their derived sub-section key, keys in
first-seen order, paragraphs within a key in original order. -/
def groupParagraphs (ps : List String) : List (String × List String) :=
  ps.foldl (fun gs p => insertGroup (extract_sub_section p) p gs) []

/-! ## The repeal-stub gate

The source drops a concatenated group whose text matches
```
re.match(r'^\s*(\([\da-z]+\)\s*)?\((weggefallen|aufgehoben)\)\s*$',
         combined_text, re.IGNORECASE)
```
The matcher below is a direct deterministic rendering of that regex: the
leading `\s*`, the inner `[\da-z]+` and the inner `\s*` are all forced to be
maximal (the character that must follow each of them can never extend them),
so the only backtracking point is the optional marker group, rendered as the
two-armed disjunction in `isRepealStub`. -/

/-- The class `[\da-z]` under `re.IGNORECASE`: ASCII digits and letters. -/
def isRegexAlnum (c : Char) : Bool :=
  c.isDigit || (c ≥ 'a' && c ≤ 'z') || (c ≥ 'A' && c ≤ 'Z')

/-- Match one literal character, returning the remainder. -/
def matchChar (c : Char) : List Char → Option (List Char)
  | [] => none
  | x :: xs => if x = c then some xs else none

/-- Match a literal word case-insensitively, returning the remainder. -/
def matchCI : List Char → List Char → Option (List Char)
  | [], cs => some cs
  | _ :: _, [] => none
  | w :: ws, c :: cs => if c.toLower = w.toLower then matchCI ws cs else none

/-- Match `[\da-z]+` (maximal munch), returning the remainder. -/
def matchAlnumPlus (cs : List Char) : Option (List Char) :=
  if (cs.takeWhile isRegexAlnum).isEmpty then none
  else some (cs.dropWhile isRegexAlnum)

/-- Match the optional marker `\([\da-z]+\)`. -/
def matchMarker (cs : List Char) : Option (List Char) :=
  match cs with
  | c :: rest =>
    if c = '(' then
      match matchAlnumPlus rest with
      | some r => matchChar ')' r
      | none => none
    else none
  | [] => none

/-- Match `\((weggefallen|aufgehoben)\)`. -/
def matchStubWord (cs : List Char) : Option (List Char) :=
  match cs with
  | c :: rest =>
    if c = '(' then
      match matchCI "weggefallen".data rest with
      | some r => matchChar ')' r
      | none =>
        match matchCI "aufgehoben".data rest with
        | some r => matchChar ')' r
        | none => none
    else none
  | [] => none

/-- Match the mandatory tail `\((weggefallen|aufgehoben)\)\s*$`. -/
def matchTail (cs : List Char) : Bool :=
  match matchStubWord cs with
  | some r => (r.dropWhile isPyWhitespace).isEmpty
  | none => false

/-- `re.match(r'^\s*(\([\da-z]+\)\s*)?\((weggefallen|aufgehoben)\)\s*$', s,
re.IGNORECASE)` as a Boolean: does the group text consist solely of a repeal
stub? -/
def isRepealStub (s : String) : Bool :=
  match matchMarker (s.data.dropWhile isPyWhitespace) with
  | some r => matchTail (r.dropWhile isPyWhitespace) ||
      matchTail (s.data.dropWhile isPyWhitespace)
  | none => matchTail (s.data.dropWhile isPyWhitespace)

/-! ## The segmentation pipeline (`scrape` minus fetch/unzip/parse)

`scrape` fetches `https://www.gesetze-im-internet.de/{code}/xml.zip`,
unzips, parses to `Dokumente`, and then runs the per-norm segmentation
below over `result.norms` in order.  Fetch, unzip and XML parsing are
external collaborators; the segmentation loop is embedded verbatim. -/

/-- The marker `"(weggefallen)"` as a character list. -/
def weggefallenMarker : List Char := "(weggefallen)".data

/-- The body of the `for norm in result.norms` loop: the list of `LegalText`
units appended for one norm. -/
def segmentNorm (code : String) (norm : Norm) : List LegalText :=
  match norm.textdaten with
  | none => []
  | some td =>
    match td.text with
    | none => []
    | some tc =>
      match tc.formatted_text with
      | none => []
      | some ft =>
        -- `if norm.metadaten.titel and "(weggefallen)" in norm.metadaten.titel.lower()`
        if (match norm.metadaten.titel with
            | some t => t.data ≠ [] && pyIn weggefallenMarker (pyLower t.data)
            | none => false) then []
        -- `if paragraphs and all(p.strip().lower() == "(weggefallen)" ...)`
        else if ft.paragraphs ≠ [] &&
            ft.paragraphs.all (fun p => pyLower (pyStrip p.data) = weggefallenMarker) then []
        -- `if norm.metadaten.enbez:` (Python truthiness: non-None, non-empty)
        else
          match norm.metadaten.enbez with
          | none => []
          | some enbez =>
            if enbez.data = [] then []
            else
              (groupParagraphs ft.paragraphs).filterMap fun kg =>
                -- `combined_text = "\n\n".join(texts)`
                if isRepealStub ⟨pyJoin "\n\n".data (kg.2.map String.data)⟩ then none
                else some ⟨⟨pyJoin "\n\n".data (kg.2.map String.data)⟩, code, enbez, kg.1⟩

/-- The whole segmentation phase of `scrape`: accumulate the units of every
norm, in document order. -/
def scrape (code : String) (norms : List Norm) : List LegalText :=
  norms.flatMap (segmentNorm code)

/-! ## The archive extractor (`_extract_xml_from_zip`)

```
with zipfile.ZipFile(io.BytesIO(zip_file), "r") as zip_ref:
    first_file = zip_ref.namelist()[0]
    with zip_ref.open(first_file) as file:
        return file.read()
```
`zipfile` is standard-library code outside this repository; it is passed in
as an explicit collaborator `zipOpen` mapping the raw bytes either to the
archive's member list (name, content) in internal listing order, or to
`none` when the bytes are not a valid archive of the expected kind. -/

/-- The two failures the extractor surfaces: `zipfile.BadZipFile` from the
archive constructor, `IndexError` from `namelist()[0]` on an empty archive. -/
inductive ZipError where
  | badZipFile
  | indexError
  deriving Repr, DecidableEq

/-- `_extract_xml_from_zip`, with the `zipfile` collaborator explicit. -/
def extract_xml_from_zip (zipOpen : List Nat → Option (List (String × List Nat)))
    (zipFile : List Nat) : Except ZipError (List Nat) :=
  match zipOpen zipFile with
  | none => .error .badZipFile
  | some members =>
    match members with
    | [] => .error .indexError
    | (_, content) :: _ => .ok content

/-- The paragraph list the segmentation loop iterates over: empty when any
link of the `textdaten → text → formatted_text` chain is missing. -/
def normParagraphs (norm : Norm) : List String :=
  match norm.textdaten with
  | some td =>
    match td.text with
    | some tc =>
      match tc.formatted_text with
      | some ft => ft.paragraphs
      | none => []
    | none => []
  | none => []

/-! ## Repository search model -/

/-- The persisted record: a `LegalText` plus surrogate id and embedding
vector (spec §3).  Vector components are embedded as integers; the distance
metric below is squared Euclidean, one of the metrics the spec names. -/
structure LegalTextRecord where
  id : Nat
  text : String
  code : String
  section' : String
  sub_section : String
  text_vector : List Int
  deriving Repr, DecidableEq

/-- Squared Euclidean distance between two vectors. -/
def sqDist (v w : List Int) : Int :=
  ((v.zip w).map fun p => (p.1 - p.2) ^ 2).sum

/-- Comparison of distance-tagged records by their distance component. -/
def distLE (a b : LegalTextRecord × Int) : Prop :=
  a.2 ≤ b.2

instance : DecidableRel distLE := fun a b => inferInstanceAs (Decidable (a.2 ≤ b.2))

instance : IsTotal (LegalTextRecord × Int) distLE := ⟨fun a b => le_total a.2 b.2⟩

instance : IsTrans (LegalTextRecord × Int) distLE := ⟨fun _ _ _ h h2 => le_trans h h2⟩

/-- Modelled from the spec: the candidate set of `semantic_search` — the
stored records with the requested code, tagged with their distance from the
query vector, with records beyond the cutoff (distance > cutoff) excluded
when a cutoff is supplied.  (The repository implementation `app.repository`
is not among the analyzed sources; this follows spec §4.4.) -/
def searchCandidates (records : List LegalTextRecord) (query : List Int)
    (code : String) (cutoff : Option Int) : List (LegalTextRecord × Int) :=
  let withDist := (records.filter fun r => r.code == code).map
    fun r => (r, sqDist query r.text_vector)
  match cutoff with
  | none => withDist
  | some d => withDist.filter fun rd => rd.2 ≤ d

/-- Modelled from the spec: the surviving candidates ordered by ascending
distance (closest first). -/
def searchSorted (records : List LegalTextRecord) (query : List Int)
    (code : String) (cutoff : Option Int) : List (LegalTextRecord × Int) :=
  List.insertionSort distLE (searchCandidates records query code cutoff)

/-- Modelled from the spec: `semantic_search(query_vector, code, limit,
optional cutoff)` — records with the given code, ordered by ascending
distance from the query vector, cutoff applied before truncation to `limit`
results, returned as (record, distance) pairs. -/
def semantic_search (records : List LegalTextRecord) (query : List Int)
    (code : String) (limit : Nat) (cutoff : Option Int) :
    List (LegalTextRecord × Int) :=
  (searchSorted records query code cutoff).take limit

/-- Fixture store for exercising the search theorem on concrete data. -/
def c9records : List LegalTextRecord :=
  [⟨1, "t1", "a", "§ 1", "1", [0]⟩, ⟨2, "t2", "a", "§ 2", "1", [5]⟩,
   ⟨3, "t3", "b", "§ 1", "1", [0]⟩]

/-! ## Auxiliary and specification-side definitions -/

/-- The keys of a grouping, in order. -/
def keysOf (gs : List (String × List String)) : List String :=
  gs.map Prod.fst

/-- A case-variant of `weggefallen` or `aufgehoben`. -/
def IsStubWord (core : List Char) : Prop :=
  pyLower core = "weggefallen".data ∨ pyLower core = "aufgehoben".data

/-- A leading marker `(<alnum>+)`. -/
def IsMarker (mk : List Char) : Prop :=
  ∃ a, mk = '(' :: (a ++ [')']) ∧ a ≠ [] ∧ ∀ c ∈ a, isRegexAlnum c

/-- What the repeal-stub regex accepts, declaratively: optional leading
whitespace, an optional `(<alnum>+)` marker, optional whitespace, a
parenthesized case-variant of `weggefallen` or `aufgehoben`, optional
trailing whitespace, end of string. -/
def RepealStubShape (s : List Char) : Prop :=
  ∃ w1 mk w2 core w3,
    s = w1 ++ mk ++ w2 ++ ('(' :: (core ++ ')' :: w3)) ∧
    (∀ c ∈ w1, isPyWhitespace c) ∧ (∀ c ∈ w2, isPyWhitespace c) ∧
    (∀ c ∈ w3, isPyWhitespace c) ∧ IsStubWord core ∧ (mk = [] ∨ IsMarker mk)

/-- The sub-section key as the spec's sentence describes it, for comparison
with the implementation's `extract_sub_section`: "if the paragraph's trimmed
text begins with `(`, the key is the substring between the first `(` and the
first following `)`; otherwise the key is the empty string". -/
def spec_sub_section (s : String) : String :=
  if pyStartswith "(".data (pyStrip s.data) then
    ⟨((s.data.dropWhile fun c => c != '(').drop 1).takeWhile fun c => c != ')'⟩
  else ""

/-- The repeal-stub pattern exactly as the claim words it, for comparison:
an optional leading `(<alnum>+)` marker, optional whitespace, then exactly
`(weggefallen)` or `(aufgehoben)` case-insensitively, and nothing else —
in particular no leading or trailing whitespace. -/
def spec_repeal_stub (s : String) : Bool :=
  match matchMarker s.data with
  | some r =>
    (match matchStubWord (r.dropWhile isPyWhitespace) with
     | some r2 => r2.isEmpty
     | none => false) ||
    (match matchStubWord s.data with
     | some r2 => r2.isEmpty
     | none => false)
  | none =>
    match matchStubWord s.data with
    | some r2 => r2.isEmpty
    | none => false

/-! ## Lemmas about `pySplit` and `_extract_sub_section` -/

theorem pySplit_ne_nil (sep : Char) (l : List Char) : pySplit sep l ≠ [] := by
  induction l with
  | nil => simp [pySplit]
  | cons c cs ih =>
    simp only [pySplit]
    split
    · simp
    · cases hp : pySplit sep cs with
      | nil => simp
      | cons r rs => simp

theorem pySplit_getD_zero (sep : Char) (l : List Char) :
    (pySplit sep l).getD 0 [] = l.takeWhile (fun c => c != sep) := by
  induction l with
  | nil => rfl
  | cons c cs ih =>
    by_cases hc : c = sep
    · subst hc
      simp [pySplit, List.takeWhile_cons]
    · cases hp : pySplit sep cs with
      | nil => exact absurd hp (pySplit_ne_nil sep cs)
      | cons r rs =>
        have hr : r = cs.takeWhile (fun c => c != sep) := by
          have h := ih
          rw [hp] at h
          simpa using h
        simp [pySplit, hc, hp, List.takeWhile_cons, hr]

theorem pySplit_cons_self (sep : Char) (l : List Char) :
    pySplit sep (sep :: l) = [] :: pySplit sep l := by
  simp [pySplit]

/-- `takeWhile` of `takeWhile` is `takeWhile` of the conjunction. -/
theorem takeWhile_and (p q : Char → Bool) (l : List Char) :
    (l.takeWhile p).takeWhile q = l.takeWhile fun a => p a && q a := by
  induction l with
  | nil => rfl
  | cons a l ih =>
    by_cases hp : p a <;> by_cases hq : q a <;>
      simp [List.takeWhile_cons, hp, hq, ih]

/-- What `_extract_sub_section` computes, in closed form: on a paragraph that
itself begins with `(` the key is everything after that `(` up to (and
excluding) the next `(` or `)` or the end of the string; on any other
paragraph the key is `""`.  (No whitespace trimming takes place.) -/
theorem extract_sub_section_spec (s : String) :
    (∀ rest : List Char, s.data = '(' :: rest →
        extract_sub_section s = ⟨rest.takeWhile fun c => c != '(' && c != ')'⟩) ∧
    ((∀ rest : List Char, s.data ≠ '(' :: rest) → extract_sub_section s = "") := by
  constructor
  · intro rest hdata
    have hpre : pyStartswith "(".data s.data = true := by
      rw [hdata]
      simp [pyStartswith, List.isPrefixOf]
    unfold extract_sub_section
    rw [if_pos hpre, hdata, pySplit_cons_self]
    have h1 : ([] :: pySplit '(' rest).getD 1 [] = (pySplit '(' rest).getD 0 [] := by
      cases hp : pySplit '(' rest with
      | nil => exact absurd hp (pySplit_ne_nil '(' rest)
      | cons r rs => simp
    rw [h1, pySplit_getD_zero, pySplit_getD_zero, takeWhile_and]
  · intro h
    have hpre : pyStartswith "(".data s.data = false := by
      cases hd : s.data with
      | nil => simp [pyStartswith, List.isPrefixOf]
      | cons c cs =>
        have hc : c ≠ '(' := by
          intro hceq
          exact h cs (by rw [hd, hceq])
        simp [pyStartswith, List.isPrefixOf, Ne.symm hc]
    unfold extract_sub_section
    rw [if_neg]
    simp [hpre]

/-! ## Lemmas about grouping -/

theorem insertGroup_keys_subset (key p : String) (gs : List (String × List String)) :
    ∀ x ∈ insertGroup key p gs, x.1 = key ∨ x.1 ∈ keysOf gs := by
  induction gs with
  | nil =>
    intro x hx
    simp [insertGroup] at hx
    subst hx
    exact Or.inl rfl
  | cons hd rest ih =>
    obtain ⟨k, ps⟩ := hd
    intro x hx
    by_cases hk : k = key
    · simp only [insertGroup, if_pos hk] at hx
      rcases List.mem_cons.1 hx with h | h
      · subst h; exact Or.inl hk
      · exact Or.inr (List.mem_map.2 ⟨x, List.mem_cons_of_mem _ h, rfl⟩)
    · simp only [insertGroup, if_neg hk] at hx
      rcases List.mem_cons.1 hx with h | h
      · subst h; exact Or.inr (by simp [keysOf])
      · rcases ih x h with h' | h'
        · exact Or.inl h'
        · exact Or.inr (by simp [keysOf] at h' ⊢; exact Or.inr h')

theorem insertGroup_pairwise (key p : String) (gs : List (String × List String))
    (h : gs.Pairwise fun a b => a.1 ≠ b.1) :
    (insertGroup key p gs).Pairwise fun a b => a.1 ≠ b.1 := by
  induction gs with
  | nil => simp [insertGroup]
  | cons hd rest ih =>
    obtain ⟨k, ps⟩ := hd
    rw [List.pairwise_cons] at h
    obtain ⟨hhead, htail⟩ := h
    by_cases hk : k = key
    · simp only [insertGroup, if_pos hk]
      exact List.pairwise_cons.2 ⟨fun b hb => hhead b hb, htail⟩
    · simp only [insertGroup, if_neg hk]
      refine List.pairwise_cons.2 ⟨?_, ih htail⟩
      intro x hx
      rcases insertGroup_keys_subset key p rest x hx with h' | h'
      · rw [h']; exact hk
      · obtain ⟨y, hy, hxy⟩ := List.mem_map.1 h'
        exact hxy ▸ hhead y hy

theorem insertGroup_of_not_mem (key p : String) (gs : List (String × List String))
    (h : key ∉ keysOf gs) :
    insertGroup key p gs = gs ++ [(key, [p])] := by
  induction gs with
  | nil => rfl
  | cons hd rest ih =>
    obtain ⟨k, ps⟩ := hd
    have hk : k ≠ key := fun hkk => h (by simp [keysOf, hkk])
    have hrest : key ∉ keysOf rest := fun hr => h (by simp [keysOf] at hr ⊢; exact Or.inr hr)
    simp only [insertGroup, if_neg hk, ih hrest, List.cons_append]

theorem insertGroup_of_mem (key p : String) (gs : List (String × List String))
    (hmem : key ∈ keysOf gs) (hdist : gs.Pairwise fun a b => a.1 ≠ b.1) :
    insertGroup key p gs =
      gs.map fun kg => if kg.1 = key then (kg.1, kg.2 ++ [p]) else kg := by
  induction gs with
  | nil => simp [keysOf] at hmem
  | cons hd rest ih =>
    obtain ⟨k, ps⟩ := hd
    rw [List.pairwise_cons] at hdist
    obtain ⟨hhead, htail⟩ := hdist
    by_cases hk : k = key
    · subst hk
      have hrest : rest.map (fun kg => if kg.1 = k then (kg.1, kg.2 ++ [p]) else kg) = rest := by
        rw [List.map_congr_left, List.map_id]
        intro kg hkg
        have hne : kg.1 ≠ k := (hhead kg hkg).symm
        simp [hne]
      simp [insertGroup, List.map_cons, hrest]
    · have hmem' : key ∈ keysOf rest := by
        simp [keysOf] at hmem ⊢
        rcases hmem with h | h
        · exact absurd h.symm hk
        · exact h
      simp only [insertGroup, if_neg hk, List.map_cons, ih hmem' htail, if_neg hk]

theorem groupParagraphs_append (ps : List String) (p : String) :
    groupParagraphs (ps ++ [p]) =
      insertGroup (extract_sub_section p) p (groupParagraphs ps) := by
  simp [groupParagraphs, List.foldl_append]

/-- The three structural invariants of the grouping: keys are pairwise
distinct; each group holds exactly the paragraphs whose key it is, in
original order; every paragraph's key occurs among the keys. -/
theorem groupParagraphs_inv (ps : List String) :
    (groupParagraphs ps).Pairwise (fun a b => a.1 ≠ b.1) ∧
    (∀ kg ∈ groupParagraphs ps,
      kg.2 = ps.filter fun q => extract_sub_section q == kg.1) ∧
    (∀ q ∈ ps, extract_sub_section q ∈ keysOf (groupParagraphs ps)) := by
  induction ps using List.reverseRecOn with
  | nil => simp [groupParagraphs]
  | append_singleton ps p ih =>
    obtain ⟨h1, h2, h3⟩ := ih
    rw [groupParagraphs_append]
    by_cases hk : extract_sub_section p ∈ keysOf (groupParagraphs ps)
    · rw [insertGroup_of_mem _ _ _ hk h1]
      refine ⟨?_, ?_, ?_⟩
      · rw [List.pairwise_map]
        refine h1.imp ?_
        intro a b hab
        by_cases ha : a.1 = extract_sub_section p <;>
          by_cases hb : b.1 = extract_sub_section p <;>
            simp only [ha, hb, if_pos, if_neg, if_true, if_false, ite_true, ite_false] <;>
              first
                | exact absurd (ha.trans hb.symm) hab
                | exact fun hc => hb hc.symm
                | simp [ha, hb, hab]
      · intro kg' hkg'
        obtain ⟨kg, hkg, hfeq⟩ := List.mem_map.1 hkg'
        by_cases hkey : kg.1 = extract_sub_section p
        · rw [if_pos hkey] at hfeq
          subst hfeq
          simp only [List.filter_append, h2 kg hkg]
          have : (extract_sub_section p == kg.1) = true := by simp [hkey]
          simp [this]
        · rw [if_neg hkey] at hfeq
          subst hfeq
          simp only [List.filter_append, h2 kg hkg]
          have : (extract_sub_section p == kg.1) = false := by simp [Ne.symm hkey]
          simp [this]
      · intro q hq
        have hkeys : keysOf ((groupParagraphs ps).map
            fun kg => if kg.1 = extract_sub_section p then (kg.1, kg.2 ++ [p]) else kg) =
            keysOf (groupParagraphs ps) := by
          simp only [keysOf, List.map_map]
          refine List.map_congr_left ?_
          intro kg _
          by_cases hkey : kg.1 = extract_sub_section p <;> simp [hkey]
        rw [hkeys]
        rcases List.mem_append.1 hq with h | h
        · exact h3 q h
        · simp at h; subst h; exact hk
    · rw [insertGroup_of_not_mem _ _ _ hk]
      refine ⟨?_, ?_, ?_⟩
      · rw [List.pairwise_append]
        refine ⟨h1, List.pairwise_singleton _ _, ?_⟩
        intro a ha b hb
        simp only [List.mem_singleton] at hb
        subst hb
        intro hcontra
        apply hk
        simp only [keysOf, List.mem_map]
        exact ⟨a, ha, hcontra⟩
      · intro kg hkg
        rcases List.mem_append.1 hkg with h | h
        · have hne : (extract_sub_section p == kg.1) = false := by
            simp only [beq_eq_false_iff_ne, ne_eq]
            intro hcontra
            exact hk (hcontra ▸ List.mem_map.2 ⟨kg, h, rfl⟩)
          simp [List.filter_append, h2 kg h, hne]
        · simp at h
          subst h
          have hnil : ps.filter (fun q => extract_sub_section q == extract_sub_section p) = [] := by
            rw [List.filter_eq_nil_iff]
            intro q hq hcontra
            simp at hcontra
            exact hk (hcontra ▸ h3 q hq)
          simp [List.filter_append, hnil]
      · intro q hq
        have hkeys : keysOf (groupParagraphs ps ++ [(extract_sub_section p, [p])]) =
            keysOf (groupParagraphs ps) ++ [extract_sub_section p] := by
          simp [keysOf]
        rw [hkeys]
        rcases List.mem_append.1 hq with h | h
        · exact List.mem_append.2 (Or.inl (h3 q h))
        · simp at h; subst h; simp

/-! ## Lemmas about `segmentNorm` and `scrape` -/

/-- Every unit a norm yields carries the caller's code, the norm's `enbez`
as its section, and a grouping key with the joined group text. -/
theorem mem_segmentNorm {code : String} {norm : Norm} {u : LegalText}
    (hu : u ∈ segmentNorm code norm) :
    u.code = code ∧ norm.metadaten.enbez = some u.section' ∧
    isRepealStub u.text = false ∧
    ∃ kg ∈ groupParagraphs (normParagraphs norm), u.sub_section = kg.1 ∧
      u.text = ⟨pyJoin "\n\n".data (kg.2.map String.data)⟩ := by
  cases htd : norm.textdaten with
  | none => simp [segmentNorm, htd] at hu
  | some td =>
    cases htext : td.text with
    | none => simp [segmentNorm, htd, htext] at hu
    | some tc =>
      cases hft : tc.formatted_text with
      | none => simp [segmentNorm, htd, htext, hft] at hu
      | some ft =>
        simp only [segmentNorm, htd, htext, hft] at hu
        have hps : normParagraphs norm = ft.paragraphs := by
          simp [normParagraphs, htd, htext, hft]
        split at hu
        · simp at hu
        · split at hu
          · simp at hu
          · split at hu
            next henbez => simp at hu
            next enbez henbez =>
              split at hu
              · simp at hu
              · rw [List.mem_filterMap] at hu
                obtain ⟨kg, hkg, hf⟩ := hu
                by_cases hstub :
                    isRepealStub ⟨pyJoin "\n\n".data (kg.2.map String.data)⟩
                · rw [if_pos hstub] at hf
                  cases hf
                · rw [if_neg hstub] at hf
                  injection hf with hf
                  subst hf
                  exact ⟨rfl, henbez, by simpa using hstub, kg, hps ▸ hkg, rfl, rfl⟩

/-- Within one norm, no two produced units share a sub-section key. -/
theorem segmentNorm_subsection_pairwise (code : String) (norm : Norm) :
    (segmentNorm code norm).Pairwise fun u v => u.sub_section ≠ v.sub_section := by
  cases htd : norm.textdaten with
  | none => simp only [segmentNorm, htd]; exact List.Pairwise.nil
  | some td =>
    cases htext : td.text with
    | none => simp only [segmentNorm, htd, htext]; exact List.Pairwise.nil
    | some tc =>
      cases hft : tc.formatted_text with
      | none => simp only [segmentNorm, htd, htext, hft]; exact List.Pairwise.nil
      | some ft =>
        simp only [segmentNorm, htd, htext, hft]
        split
        · exact List.Pairwise.nil
        · split
          · exact List.Pairwise.nil
          · split
            · exact List.Pairwise.nil
            · split
              · exact List.Pairwise.nil
              · refine List.Pairwise.filterMap _ ?_ (groupParagraphs_inv ft.paragraphs).1
                intro a a' hne b hb b' hb'
                by_cases ha : isRepealStub ⟨pyJoin "\n\n".data (a.2.map String.data)⟩
                · rw [Option.mem_def, if_pos ha] at hb
                  cases hb
                · rw [Option.mem_def, if_neg ha] at hb
                  injection hb with hb
                  by_cases ha' : isRepealStub ⟨pyJoin "\n\n".data (a'.2.map String.data)⟩
                  · rw [Option.mem_def, if_pos ha'] at hb'
                    cases hb'
                  · rw [Option.mem_def, if_neg ha'] at hb'
                    injection hb' with hb'
                    subst hb
                    subst hb'
                    exact hne

/-- `scrape` membership: every produced unit comes from some norm. -/
theorem mem_scrape {code : String} {norms : List Norm} {u : LegalText}
    (hu : u ∈ scrape code norms) :
    ∃ n, n ∈ norms ∧ u ∈ segmentNorm code n :=
  List.mem_flatMap.1 hu

/-! ## Declarative characterization of the repeal-stub pattern -/

theorem matchChar_eq_some {c : Char} {l r : List Char} :
    matchChar c l = some r ↔ l = c :: r := by
  cases l with
  | nil => simp [matchChar]
  | cons x xs =>
    by_cases h : x = c
    · subst h
      simp [matchChar]
    · simp [matchChar, h]

theorem matchCI_eq_some {w : List Char} : ∀ {cs r : List Char},
    matchCI w cs = some r ↔ ∃ pre, cs = pre ++ r ∧ pyLower pre = pyLower w := by
  induction w with
  | nil =>
    intro cs r
    constructor
    · intro h
      refine ⟨[], ?_, rfl⟩
      simpa [matchCI] using h
    · rintro ⟨pre, h1, h2⟩
      have hpre : pre = [] := by simpa [pyLower] using h2
      subst hpre
      simpa [matchCI] using h1
  | cons w ws ih =>
    intro cs r
    cases cs with
    | nil =>
      constructor
      · intro h
        simp [matchCI] at h
      · rintro ⟨pre, h1, h2⟩
        cases pre with
        | nil => simp [pyLower] at h2
        | cons p ps => simp at h1
    | cons c cs' =>
      by_cases h : c.toLower = w.toLower
      · rw [show matchCI (w :: ws) (c :: cs') = matchCI ws cs' by simp [matchCI, h], ih]
        constructor
        · rintro ⟨pre, h1, h2⟩
          refine ⟨c :: pre, by simp [h1], ?_⟩
          simp only [pyLower, List.map_cons, List.cons.injEq] at h2 ⊢
          exact ⟨h, h2⟩
        · rintro ⟨pre, h1, h2⟩
          cases pre with
          | nil => simp [pyLower] at h2
          | cons p ps =>
            rw [List.cons_append] at h1
            injection h1 with hcp h1'
            subst hcp
            simp only [pyLower, List.map_cons, List.cons.injEq] at h2
            exact ⟨ps, h1', by simp only [pyLower]; exact h2.2⟩
      · constructor
        · intro hm
          simp [matchCI, h] at hm
        · rintro ⟨pre, h1, h2⟩
          cases pre with
          | nil => simp [pyLower] at h2
          | cons p ps =>
            rw [List.cons_append] at h1
            injection h1 with hcp h1'
            subst hcp
            simp only [pyLower, List.map_cons, List.cons.injEq] at h2
            exact absurd h2.1 h

theorem matchAlnumPlus_some {cs r : List Char} (h : matchAlnumPlus cs = some r) :
    ∃ a, cs = a ++ r ∧ a ≠ [] ∧ ∀ c ∈ a, isRegexAlnum c := by
  unfold matchAlnumPlus at h
  split at h
  · cases h
  · next hne =>
    injection h with h
    refine ⟨cs.takeWhile isRegexAlnum, ?_, ?_, fun c hc => List.mem_takeWhile_imp hc⟩
    · rw [← h]
      exact (List.takeWhile_append_dropWhile _ _).symm
    · simpa using hne

theorem matchAlnumPlus_shape {a t : List Char} (ha : a ≠ [])
    (hall : ∀ c ∈ a, isRegexAlnum c) :
    matchAlnumPlus (a ++ ')' :: t) = some (')' :: t) := by
  have hpar : isRegexAlnum ')' = false := by decide
  have ht : (a ++ ')' :: t).takeWhile isRegexAlnum = a := by
    rw [List.takeWhile_append_of_pos hall]
    simp [List.takeWhile_cons, hpar]
  have hd : (a ++ ')' :: t).dropWhile isRegexAlnum = ')' :: t := by
    rw [List.dropWhile_append_of_pos hall]
    simp [List.dropWhile_cons, hpar]
  unfold matchAlnumPlus
  rw [ht, hd]
  simp [ha]

theorem matchMarker_some {cs r : List Char} (h : matchMarker cs = some r) :
    ∃ a, cs = '(' :: (a ++ ')' :: r) ∧ a ≠ [] ∧ ∀ c ∈ a, isRegexAlnum c := by
  cases cs with
  | nil => simp [matchMarker] at h
  | cons c rest =>
    by_cases hc : c = '('
    · subst hc
      simp only [matchMarker, if_pos rfl] at h
      cases hap : matchAlnumPlus rest with
      | none => rw [hap] at h; cases h
      | some r1 =>
        rw [hap] at h
        have hr1 := matchChar_eq_some.1 h
        obtain ⟨a, hrest, ha, hall⟩ := matchAlnumPlus_some hap
        exact ⟨a, by rw [hrest, hr1], ha, hall⟩
    · simp [matchMarker, hc] at h

theorem matchMarker_shape {a t : List Char} (ha : a ≠ [])
    (hall : ∀ c ∈ a, isRegexAlnum c) :
    matchMarker ('(' :: (a ++ ')' :: t)) = some t := by
  simp [matchMarker, matchAlnumPlus_shape ha hall, matchChar_eq_some]

theorem matchStubWord_some {cs r : List Char} (h : matchStubWord cs = some r) :
    ∃ core, cs = '(' :: (core ++ ')' :: r) ∧ IsStubWord core := by
  cases cs with
  | nil => simp [matchStubWord] at h
  | cons c rest =>
    by_cases hc : c = '('
    · subst hc
      simp only [matchStubWord, if_pos rfl] at h
      cases hw : matchCI "weggefallen".data rest with
      | some r1 =>
        rw [hw] at h
        have hr1 := matchChar_eq_some.1 h
        obtain ⟨pre, hp1, hp2⟩ := matchCI_eq_some.1 hw
        refine ⟨pre, by rw [hp1, hr1], Or.inl ?_⟩
        rw [hp2]
        decide
      | none =>
        rw [hw] at h
        cases haw : matchCI "aufgehoben".data rest with
        | none => rw [haw] at h; cases h
        | some r1 =>
          rw [haw] at h
          have hr1 := matchChar_eq_some.1 h
          obtain ⟨pre, hp1, hp2⟩ := matchCI_eq_some.1 haw
          refine ⟨pre, by rw [hp1, hr1], Or.inr ?_⟩
          rw [hp2]
          decide
    · simp [matchStubWord, hc] at h

theorem matchStubWord_shape {core t : List Char} (hcore : IsStubWord core) :
    matchStubWord ('(' :: (core ++ ')' :: t)) = some t := by
  rcases hcore with hw | ha
  · have h1 : matchCI "weggefallen".data (core ++ ')' :: t) = some (')' :: t) :=
      matchCI_eq_some.2 ⟨core, rfl, by rw [hw]; decide⟩
    simp [matchStubWord, h1, matchChar_eq_some]
  · have h0 : matchCI "weggefallen".data (core ++ ')' :: t) = none := by
      cases hm : matchCI "weggefallen".data (core ++ ')' :: t) with
      | none => rfl
      | some r2 =>
        exfalso
        obtain ⟨pre, hp1, hp2⟩ := matchCI_eq_some.1 hm
        have e1 : pyLower (core ++ ')' :: t) = pyLower pre ++ pyLower r2 := by
          rw [hp1]
          simp [pyLower]
        rw [hp2] at e1
        have e2 : pyLower (core ++ ')' :: t) =
            "aufgehoben".data ++ ')' :: pyLower t := by
          simp only [pyLower, List.map_append, List.map_cons]
          rw [show core.map Char.toLower = "aufgehoben".data from ha,
            show Char.toLower ')' = ')' from by decide]
        rw [e2] at e1
        rw [show "aufgehoben".data = 'a' :: "ufgehoben".data from rfl,
          show pyLower "weggefallen".data = 'w' :: "eggefallen".data by decide] at e1
        simp only [List.cons_append, List.cons.injEq] at e1
        exact absurd e1.1 (by decide)
    have h1 : matchCI "aufgehoben".data (core ++ ')' :: t) = some (')' :: t) :=
      matchCI_eq_some.2 ⟨core, rfl, by rw [ha]; decide⟩
    simp [matchStubWord, h0, h1, matchChar_eq_some]

theorem matchTail_iff {cs : List Char} :
    matchTail cs = true ↔ ∃ core w3, cs = '(' :: (core ++ ')' :: w3) ∧
      IsStubWord core ∧ ∀ c ∈ w3, isPyWhitespace c := by
  constructor
  · intro h
    unfold matchTail at h
    cases hm : matchStubWord cs with
    | none => rw [hm] at h; cases h
    | some r =>
      rw [hm] at h
      obtain ⟨core, hshape, hstub⟩ := matchStubWord_some hm
      refine ⟨core, r, hshape, hstub, ?_⟩
      rw [← List.dropWhile_eq_nil_iff]
      simpa using h
  · rintro ⟨core, w3, hshape, hstub, hw3⟩
    unfold matchTail
    rw [hshape, matchStubWord_shape hstub]
    simp only [List.isEmpty_eq_true, List.dropWhile_eq_nil_iff]
    exact hw3

/-- The hand-rolled matcher accepts exactly the strings of the declarative
repeal-stub shape. -/
theorem isRepealStub_iff {s : String} :
    isRepealStub s = true ↔ RepealStubShape s.data := by
  have hsplit : s.data =
      s.data.takeWhile isPyWhitespace ++ s.data.dropWhile isPyWhitespace :=
    (List.takeWhile_append_dropWhile _ _).symm
  have hw1 : ∀ c ∈ s.data.takeWhile isPyWhitespace, isPyWhitespace c :=
    fun c hc => List.mem_takeWhile_imp hc
  constructor
  · intro h
    unfold isRepealStub at h
    cases hm : matchMarker (s.data.dropWhile isPyWhitespace) with
    | none =>
      rw [hm] at h
      obtain ⟨core, w3, hshape, hstub, hws3⟩ := matchTail_iff.1 h
      refine ⟨s.data.takeWhile isPyWhitespace, [], [], core, w3,
        ?_, hw1, by simp, hws3, hstub, Or.inl rfl⟩
      conv_lhs => rw [hsplit]
      rw [hshape]
      simp
    | some r =>
      rw [hm] at h
      have h2 : matchTail (r.dropWhile isPyWhitespace) = true ∨
          matchTail (s.data.dropWhile isPyWhitespace) = true := by
        simpa using h
      rcases h2 with h' | h'
      · obtain ⟨a, hcs, ha, hall⟩ := matchMarker_some hm
        obtain ⟨core, w3, hshape, hstub, hws3⟩ := matchTail_iff.1 h'
        have hr : r = r.takeWhile isPyWhitespace ++ r.dropWhile isPyWhitespace :=
          (List.takeWhile_append_dropWhile _ _).symm
        refine ⟨s.data.takeWhile isPyWhitespace, '(' :: (a ++ [')']),
          r.takeWhile isPyWhitespace, core, w3, ?_, hw1,
          fun c hc => List.mem_takeWhile_imp hc, hws3, hstub,
          Or.inr ⟨a, rfl, ha, hall⟩⟩
        conv_lhs => rw [hsplit]
        rw [hcs]
        conv_lhs => rw [hr]
        rw [hshape]
        simp
      · obtain ⟨core, w3, hshape, hstub, hws3⟩ := matchTail_iff.1 h'
        refine ⟨s.data.takeWhile isPyWhitespace, [], [], core, w3,
          ?_, hw1, by simp, hws3, hstub, Or.inl rfl⟩
        conv_lhs => rw [hsplit]
        rw [hshape]
        simp
  · rintro ⟨w1, mk, w2, core, w3, hs, hww1, hww2, hww3, hstub, hmk⟩
    have hpar : isPyWhitespace '(' = false := by decide
    unfold isRepealStub
    rcases hmk with rfl | ⟨a, rfl, ha, hall⟩
    · have hws : ∀ c ∈ w1 ++ w2, isPyWhitespace c := by
        intro c hc
        rcases List.mem_append.1 hc with h | h
        · exact hww1 c h
        · exact hww2 c h
      have hcs : s.data.dropWhile isPyWhitespace = '(' :: (core ++ ')' :: w3) := by
        rw [hs]
        rw [show w1 ++ [] ++ w2 ++ ('(' :: (core ++ ')' :: w3)) =
          (w1 ++ w2) ++ ('(' :: (core ++ ')' :: w3)) by simp]
        rw [List.dropWhile_append_of_pos hws, List.dropWhile_cons]
        simp [hpar]
      have htail : matchTail (s.data.dropWhile isPyWhitespace) = true := by
        rw [hcs]
        exact matchTail_iff.2 ⟨core, w3, rfl, hstub, hww3⟩
      cases hm : matchMarker (s.data.dropWhile isPyWhitespace) with
      | none => exact htail
      | some r => simp [htail]
    · have hcs : s.data.dropWhile isPyWhitespace =
          '(' :: (a ++ ')' :: (w2 ++ ('(' :: (core ++ ')' :: w3)))) := by
        rw [hs]
        rw [show w1 ++ ('(' :: (a ++ [')'])) ++ w2 ++ ('(' :: (core ++ ')' :: w3)) =
          w1 ++ ('(' :: (a ++ ')' :: (w2 ++ ('(' :: (core ++ ')' :: w3))))) by
            simp [List.append_assoc]]
        rw [List.dropWhile_append_of_pos hww1, List.dropWhile_cons]
        simp [hpar]
      have hmm : matchMarker (s.data.dropWhile isPyWhitespace) =
          some (w2 ++ ('(' :: (core ++ ')' :: w3))) := by
        rw [hcs]
        exact matchMarker_shape ha hall
      have htail2 :
          matchTail ((w2 ++ ('(' :: (core ++ ')' :: w3))).dropWhile isPyWhitespace) =
            true := by
        rw [List.dropWhile_append_of_pos hww2, List.dropWhile_cons]
        simp only [hpar, Bool.false_eq_true, if_false]
        exact matchTail_iff.2 ⟨core, w3, rfl, hstub, hww3⟩
      rw [hmm]
      simp [htail2]

/-! ## Claims C1–C4, C6–C8, C10 -/

/-- C1 counterexample: the paragraph `" (2a) Some text"` has trimmed text
beginning with `(`, so the claim demands key `"2a"`, but the code tests
`startswith` on the untrimmed string and returns `""`. -/
theorem C1_counterexample :
    extract_sub_section " (2a) Some text" = "" ∧
    spec_sub_section " (2a) Some text" = "2a" ∧
    extract_sub_section " (2a) Some text" ≠ spec_sub_section " (2a) Some text" := by
  decide

/-- C1 (amended): for every paragraph string that itself (untrimmed) begins
with `(`, the derived key is the text after that `(` up to, and excluding,
the first following `(` or `)` (to the end of the string if neither occurs);
for every other paragraph the derived key is the empty string. -/
theorem C1_extract_key (s : String) :
    (∀ rest : List Char, s.data = '(' :: rest →
        extract_sub_section s = ⟨rest.takeWhile fun c => c != '(' && c != ')'⟩) ∧
    ((∀ rest : List Char, s.data ≠ '(' :: rest) → extract_sub_section s = "") :=
  extract_sub_section_spec s

theorem C1_extract_key_witness :
    extract_sub_section "(2a) Some text" = "2a" ∧ extract_sub_section "" = "" := by
  refine ⟨?_, ?_⟩
  · exact ((C1_extract_key "(2a) Some text").1 "2a) Some text".data (by decide)).trans
      (by decide)
  · exact (C1_extract_key "").2 (fun rest h => List.noConfusion h)

/-- C2 counterexample: two norms with the same `enbez` produce units sharing
all of (code, section, sub_section), so the tuple is not unique across the
whole output as the claim states. -/
theorem C2_counterexample :
    ¬ (scrape "bgb"
        [⟨⟨["BGB"], some "§ 1", none⟩, some ⟨some ⟨some ⟨"", ["(1) First."]⟩⟩⟩⟩,
         ⟨⟨["BGB"], some "§ 1", none⟩, some ⟨some ⟨some ⟨"", ["(1) Second."]⟩⟩⟩⟩]).Pairwise
      (fun u v => ¬(u.code = v.code ∧ u.section' = v.section' ∧
        u.sub_section = v.sub_section)) := by
  decide

/-- C2 (amended): within one scrape run in which no two norms carry the same
non-null section identifier (`enbez`), no two produced units share all three
of code, section and sub_section — across the entire output, including units
from different norms. -/
theorem C2_scrape_key_unique (code : String) (norms : List Norm)
    (h : norms.Pairwise fun n m =>
      n.metadaten.enbez = none ∨ n.metadaten.enbez ≠ m.metadaten.enbez) :
    (scrape code norms).Pairwise fun u v =>
      ¬(u.code = v.code ∧ u.section' = v.section' ∧
        u.sub_section = v.sub_section) := by
  unfold scrape
  rw [List.pairwise_flatMap]
  constructor
  · intro n _
    exact (segmentNorm_subsection_pairwise code n).imp fun huv hc => huv hc.2.2
  · refine h.imp fun {n m} hnm u hu v hv hc => ?_
    obtain ⟨_, hn, _⟩ := mem_segmentNorm hu
    obtain ⟨_, hm, _⟩ := mem_segmentNorm hv
    rcases hnm with hnone | hne
    · rw [hnone] at hn
      cases hn
    · apply hne
      rw [hn, hm, hc.2.1]

theorem C2_scrape_key_unique_witness :
    (scrape "bgb"
      [⟨⟨["BGB"], some "§ 1", none⟩, some ⟨some ⟨some ⟨"", ["(1) A."]⟩⟩⟩⟩,
       ⟨⟨["BGB"], some "§ 2", none⟩, some ⟨some ⟨some ⟨"", ["(1) B."]⟩⟩⟩⟩]).Pairwise
      (fun u v => ¬(u.code = v.code ∧ u.section' = v.section' ∧
        u.sub_section = v.sub_section)) :=
  C2_scrape_key_unique "bgb" _ (by decide)

/-- C3: paragraphs are grouped by derived key — each group holds exactly the
paragraphs with that key, in original order — and the scenario
`["(1) First numbered.", "Continuation of first.", "(2) Second numbered.",
"Another unnumbered."]` yields exactly three units, with sub_sections "1",
"" and "2" in first-seen key order, the "" unit joining both unnumbered
paragraphs with the blank-line separator. -/
theorem C3_grouping_scenario (code : String) :
    (∀ ps : List String, ∀ kg ∈ groupParagraphs ps,
        kg.2 = ps.filter fun q => extract_sub_section q == kg.1) ∧
    segmentNorm code
        ⟨⟨["BGB"], some "§ 1", none⟩,
          some ⟨some ⟨some ⟨"", ["(1) First numbered.", "Continuation of first.",
            "(2) Second numbered.", "Another unnumbered."]⟩⟩⟩⟩ =
      [⟨"(1) First numbered.", code, "§ 1", "1"⟩,
       ⟨"Continuation of first.\n\nAnother unnumbered.", code, "§ 1", ""⟩,
       ⟨"(2) Second numbered.", code, "§ 1", "2"⟩] := by
  refine ⟨fun ps kg hkg => (groupParagraphs_inv ps).2.1 kg hkg, ?_⟩
  rfl

theorem C3_grouping_scenario_witness :
    (("", ["Continuation of first.", "Another unnumbered."]) :
        String × List String).2 =
      (["(1) First numbered.", "Continuation of first.", "(2) Second numbered.",
        "Another unnumbered."].filter fun q => extract_sub_section q == "") ∧
    segmentNorm "bgb"
        ⟨⟨["BGB"], some "§ 1", none⟩,
          some ⟨some ⟨some ⟨"", ["(1) First numbered.", "Continuation of first.",
            "(2) Second numbered.", "Another unnumbered."]⟩⟩⟩⟩ =
      [⟨"(1) First numbered.", "bgb", "§ 1", "1"⟩,
       ⟨"Continuation of first.\n\nAnother unnumbered.", "bgb", "§ 1", ""⟩,
       ⟨"(2) Second numbered.", "bgb", "§ 1", "2"⟩] :=
  ⟨(C3_grouping_scenario "bgb").1 _ _ (by decide), (C3_grouping_scenario "bgb").2⟩

/-- C4: a norm whose title contains "(weggefallen)" in any letter case, or
whose every paragraph trims to "(weggefallen)" case-insensitively, produces
zero units. -/
theorem C4_obsolete_norm (code : String) (norm : Norm)
    (h : (∃ t, norm.metadaten.titel = some t ∧
            pyIn weggefallenMarker (pyLower t.data) = true) ∨
         (∀ p ∈ normParagraphs norm, pyLower (pyStrip p.data) = weggefallenMarker)) :
    segmentNorm code norm = [] := by
  cases htd : norm.textdaten with
  | none => simp [segmentNorm, htd]
  | some td =>
    cases htext : td.text with
    | none => simp [segmentNorm, htd, htext]
    | some tc =>
      cases hft : tc.formatted_text with
      | none => simp [segmentNorm, htd, htext, hft]
      | some ft =>
        have hps : normParagraphs norm = ft.paragraphs := by
          simp [normParagraphs, htd, htext, hft]
        rcases h with ⟨t, ht, hin⟩ | hall
        · have ht' : t.data ≠ [] := by
            intro h0
            rw [h0] at hin
            exact absurd hin (by decide)
          simp [segmentNorm, htd, htext, hft, ht, ht', hin]
        · rw [hps] at hall
          simp only [segmentNorm, htd, htext, hft]
          split
          · rfl
          · split
            · rfl
            · next hgate =>
                by_cases hnil : ft.paragraphs = []
                · rw [hnil]
                  split
                  · rfl
                  · split
                    · rfl
                    · rfl
                · exfalso
                  apply hgate
                  simp only [Bool.and_eq_true, decide_eq_true_eq, List.all_eq_true]
                  exact ⟨hnil, fun p hp => by simp [hall p hp]⟩

theorem C4_obsolete_norm_witness :
    segmentNorm "bgb"
        ⟨⟨["BGB"], some "§ 5", some "§ 5 (WEGGEFALLEN)"⟩,
          some ⟨some ⟨some ⟨"", ["(1) Text."]⟩⟩⟩⟩ = [] ∧
    segmentNorm "bgb"
        ⟨⟨["BGB"], some "§ 6", none⟩,
          some ⟨some ⟨some ⟨"", ["  (Weggefallen) "]⟩⟩⟩⟩ = [] := by
  constructor
  · exact C4_obsolete_norm "bgb" _ (Or.inl ⟨"§ 5 (WEGGEFALLEN)", rfl, by decide⟩)
  · refine C4_obsolete_norm "bgb" _ (Or.inr ?_)
    intro p hp
    have hp' : p = "  (Weggefallen) " := by
      simpa [normParagraphs] using hp
    rw [hp']
    decide

/-- C6: segmentation never fails on missing optional fields — a norm with no
`enbez` yields zero units, a norm with a missing or empty paragraph list
yields zero units, and an empty document yields the empty list as a valid
result. -/
theorem C6_optional_fields :
    (∀ (code : String) (norm : Norm), norm.metadaten.enbez = none →
        segmentNorm code norm = []) ∧
    (∀ (code : String) (norm : Norm), normParagraphs norm = [] →
        segmentNorm code norm = []) ∧
    (∀ code : String, scrape code [] = []) := by
  refine ⟨?_, ?_, fun code => rfl⟩
  · intro code norm h
    cases htd : norm.textdaten with
    | none => simp [segmentNorm, htd]
    | some td =>
      cases htext : td.text with
      | none => simp [segmentNorm, htd, htext]
      | some tc =>
        cases hft : tc.formatted_text with
        | none => simp [segmentNorm, htd, htext, hft]
        | some ft => simp [segmentNorm, htd, htext, hft, h]
  · intro code norm h
    cases htd : norm.textdaten with
    | none => simp [segmentNorm, htd]
    | some td =>
      cases htext : td.text with
      | none => simp [segmentNorm, htd, htext]
      | some tc =>
        cases hft : tc.formatted_text with
        | none => simp [segmentNorm, htd, htext, hft]
        | some ft =>
          have hps : ft.paragraphs = [] := by
            simpa [normParagraphs, htd, htext, hft] using h
          simp only [segmentNorm, htd, htext, hft, hps]
          split
          · rfl
          · split
            · rfl
            · split
              · rfl
              · split
                · rfl
                · rfl

theorem C6_optional_fields_witness :
    segmentNorm "bgb" ⟨⟨["BGB"], none, none⟩,
      some ⟨some ⟨some ⟨"", ["Text."]⟩⟩⟩⟩ = [] ∧
    segmentNorm "bgb" ⟨⟨["BGB"], some "§ 1", none⟩,
      some ⟨some ⟨some ⟨"", []⟩⟩⟩⟩ = [] ∧
    scrape "bgb" [] = [] :=
  ⟨C6_optional_fields.1 "bgb" _ rfl, C6_optional_fields.2.1 "bgb" _ rfl,
    C6_optional_fields.2.2 "bgb"⟩

/-- C7: every produced unit carries the caller-supplied code (never the
source metadata's own identifiers), the section is its norm's `enbez`, and
the sub_section is its group's key (with the group's joined text). -/
theorem C7_unit_fields (code : String) (norms : List Norm) (u : LegalText)
    (hu : u ∈ scrape code norms) :
    u.code = code ∧
    ∃ n, n ∈ norms ∧ n.metadaten.enbez = some u.section' ∧
      ∃ kg, kg ∈ groupParagraphs (normParagraphs n) ∧ u.sub_section = kg.1 ∧
        u.text = ⟨pyJoin "\n\n".data (kg.2.map String.data)⟩ := by
  obtain ⟨n, hn, hun⟩ := mem_scrape hu
  obtain ⟨h1, h2, _, kg, hkg, h3, h4⟩ := mem_segmentNorm hun
  exact ⟨h1, n, hn, h2, kg, hkg, h3, h4⟩

theorem C7_unit_fields_witness :
    (⟨"Text.", "my_custom_code", "§ 1", ""⟩ : LegalText).code = "my_custom_code" ∧
    ∃ n, n ∈ [(⟨⟨["BGB"], some "§ 1", none⟩,
          some ⟨some ⟨some ⟨"", ["Text."]⟩⟩⟩⟩ : Norm)] ∧
      n.metadaten.enbez = some (⟨"Text.", "my_custom_code", "§ 1", ""⟩ : LegalText).section' ∧
      ∃ kg, kg ∈ groupParagraphs (normParagraphs n) ∧
        (⟨"Text.", "my_custom_code", "§ 1", ""⟩ : LegalText).sub_section = kg.1 ∧
        (⟨"Text.", "my_custom_code", "§ 1", ""⟩ : LegalText).text =
          ⟨pyJoin "\n\n".data (kg.2.map String.data)⟩ :=
  C7_unit_fields "my_custom_code" _ _ (by decide)

/-- C8: the archive extractor returns the first member's bytes of a valid
non-empty archive (later members ignored), fails with a format error on
invalid input, and with an index error on an archive with zero members. -/
theorem C8_extract_zip (zipOpen : List Nat → Option (List (String × List Nat)))
    (data : List Nat) :
    (zipOpen data = none →
        extract_xml_from_zip zipOpen data = .error .badZipFile) ∧
    (zipOpen data = some [] →
        extract_xml_from_zip zipOpen data = .error .indexError) ∧
    (∀ (name : String) (content : List Nat) (rest : List (String × List Nat)),
      zipOpen data = some ((name, content) :: rest) →
        extract_xml_from_zip zipOpen data = .ok content) := by
  refine ⟨fun h => ?_, fun h => ?_, fun name content rest h => ?_⟩ <;>
    simp [extract_xml_from_zip, h]

theorem C8_extract_zip_witness :
    extract_xml_from_zip
      (fun b => if b = [80, 75] then
        some [("norm.xml", [60, 62]), ("extra.xml", [33])] else none)
      [80, 75] = .ok [60, 62] ∧
    extract_xml_from_zip (fun _ => none) [0] = .error .badZipFile ∧
    extract_xml_from_zip (fun _ => some []) [80] = .error .indexError := by
  refine ⟨?_, ?_, ?_⟩
  · exact (C8_extract_zip _ [80, 75]).2.2 "norm.xml" [60, 62] [("extra.xml", [33])]
      (by decide)
  · exact (C8_extract_zip _ [0]).1 rfl
  · exact (C8_extract_zip _ [80]).2.1 rfl

/-- C10: a norm whose `textdaten` chain is broken at any link — no
`textdaten`, no `text`, or no `formatted_text` — produces zero units and no
error, whatever its metadata (including a non-null `enbez`). -/
theorem C10_missing_text_chain (code : String) (norm : Norm)
    (h : norm.textdaten = none ∨
         (∃ td, norm.textdaten = some td ∧ td.text = none) ∨
         (∃ td tc, norm.textdaten = some td ∧ td.text = some tc ∧
            tc.formatted_text = none)) :
    segmentNorm code norm = [] := by
  rcases h with h | ⟨td, h1, h2⟩ | ⟨td, tc, h1, h2, h3⟩
  · simp [segmentNorm, h]
  · simp [segmentNorm, h1, h2]
  · simp [segmentNorm, h1, h2, h3]

theorem C10_missing_text_chain_witness :
    segmentNorm "bgb" ⟨⟨["BGB"], some "§ 1", none⟩, none⟩ = [] ∧
    segmentNorm "bgb" ⟨⟨["BGB"], some "§ 2", none⟩, some ⟨none⟩⟩ = [] ∧
    segmentNorm "bgb" ⟨⟨["BGB"], some "§ 3", none⟩, some ⟨some ⟨none⟩⟩⟩ = [] :=
  ⟨C10_missing_text_chain "bgb" _ (Or.inl rfl),
   C10_missing_text_chain "bgb" _ (Or.inr (Or.inl ⟨⟨none⟩, rfl, rfl⟩)),
   C10_missing_text_chain "bgb" _ (Or.inr (Or.inr ⟨⟨some ⟨none⟩⟩, ⟨none⟩, rfl, rfl, rfl⟩))⟩

/-! ## Claim C5 -/

/-- C5 counterexample: the group whose full text is `"(weggefallen) "`
(trailing space) does not match the claim's pattern — "nothing else" after
the stub — yet the code excludes it from the scrape output, because the
regex additionally tolerates leading and trailing whitespace. -/
theorem C5_counterexample :
    isRepealStub "(weggefallen) " = true ∧
    spec_repeal_stub "(weggefallen) " = false ∧
    scrape "bgb"
      [⟨⟨["BGB"], some "§ 1", none⟩,
        some ⟨some ⟨some ⟨"", ["(1) Content.", "(weggefallen) "]⟩⟩⟩⟩] =
      [⟨"(1) Content.", "bgb", "§ 1", "1"⟩] := by
  decide

/-- C5 (amended): a concatenated group is excluded exactly when its full
text is: optional leading whitespace, an optional parenthesized
alphanumeric marker, optional whitespace, exactly `(weggefallen)` or
`(aufgehoben)` case-insensitively, then optional trailing whitespace and
nothing else; consequently no emitted unit's text has that shape. -/
theorem C5_repeal_stub :
    (∀ s : String, isRepealStub s = true ↔ RepealStubShape s.data) ∧
    (∀ (code : String) (norm : Norm) (u : LegalText),
      u ∈ segmentNorm code norm → ¬ RepealStubShape u.text.data) := by
  refine ⟨fun s => isRepealStub_iff, ?_⟩
  intro code norm u hu hshape
  obtain ⟨_, _, hstub, _⟩ := mem_segmentNorm hu
  rw [← isRepealStub_iff] at hshape
  rw [hstub] at hshape
  cases hshape

theorem C5_repeal_stub_witness :
    RepealStubShape "(4)(weggefallen)".data ∧
    ¬ RepealStubShape "(1) Normaler Text.".data ∧
    ¬ RepealStubShape (⟨"(1) Content.", "bgb", "§ 1", "1"⟩ : LegalText).text.data := by
  refine ⟨?_, ?_, ?_⟩
  · exact (C5_repeal_stub.1 "(4)(weggefallen)").1 (by decide)
  · intro h
    exact absurd ((C5_repeal_stub.1 "(1) Normaler Text.").2 h) (by decide)
  · exact C5_repeal_stub.2 "bgb"
      ⟨⟨["BGB"], some "§ 1", none⟩,
        some ⟨some ⟨some ⟨"", ["(1) Content.", "(weggefallen) "]⟩⟩⟩⟩ _ (by decide)

/-! ## Claim C9 -/

theorem mem_searchCandidates {records : List LegalTextRecord} {query : List Int}
    {code : String} {cutoff : Option Int} {rd : LegalTextRecord × Int}
    (h : rd ∈ searchCandidates records query code cutoff) :
    rd.1.code = code ∧ rd.1 ∈ records ∧ rd.2 = sqDist query rd.1.text_vector ∧
    ∀ d, cutoff = some d → rd.2 ≤ d := by
  cases hcut : cutoff with
  | none =>
    subst hcut
    simp only [searchCandidates] at h
    obtain ⟨r, hrf, heq⟩ := List.mem_map.1 h
    obtain ⟨hrm, hrc⟩ := List.mem_filter.1 hrf
    subst heq
    exact ⟨by simpa using hrc, hrm, rfl, fun d hd => by cases hd⟩
  | some d0 =>
    subst hcut
    simp only [searchCandidates] at h
    obtain ⟨hf, hle⟩ := List.mem_filter.1 h
    obtain ⟨r, hrf, heq⟩ := List.mem_map.1 hf
    obtain ⟨hrm, hrc⟩ := List.mem_filter.1 hrf
    subst heq
    refine ⟨by simpa using hrc, hrm, rfl, fun d hd => ?_⟩
    injection hd with hd
    subst hd
    simpa using hle

/-- C9: `semantic_search` returns only records with the requested code, as
(record, distance) pairs with the distance from the query vector, in
non-decreasing distance order; a cutoff excludes every record with distance
above it before truncation; a limit bounds the count, and the kept results
are lower-or-equal in distance to every candidate the truncation dropped —
together with the permutation fact, the k smallest distances present. -/
theorem C9_semantic_search (records : List LegalTextRecord) (query : List Int)
    (code : String) (limit : Nat) (cutoff : Option Int) :
    (∀ rd ∈ semantic_search records query code limit cutoff,
        rd.1.code = code ∧ rd.1 ∈ records ∧
        rd.2 = sqDist query rd.1.text_vector) ∧
    ((semantic_search records query code limit cutoff).map Prod.snd).Pairwise
      (· ≤ ·) ∧
    (∀ d : Int, cutoff = some d →
      ∀ rd ∈ semantic_search records query code limit cutoff, rd.2 ≤ d) ∧
    (semantic_search records query code limit cutoff).length ≤ limit ∧
    (∀ rd ∈ semantic_search records query code limit cutoff,
      ∀ x ∈ (searchSorted records query code cutoff).drop limit, rd.2 ≤ x.2) ∧
    (semantic_search records query code limit cutoff ++
      (searchSorted records query code cutoff).drop limit).Perm
        (searchCandidates records query code cutoff) := by
  have hsorted : (searchSorted records query code cutoff).Pairwise distLE :=
    List.sorted_insertionSort distLE (searchCandidates records query code cutoff)
  have hperm : (searchSorted records query code cutoff).Perm
      (searchCandidates records query code cutoff) :=
    List.perm_insertionSort distLE (searchCandidates records query code cutoff)
  have hmem : ∀ rd ∈ semantic_search records query code limit cutoff,
      rd ∈ searchCandidates records query code cutoff := by
    intro rd hrd
    exact hperm.mem_iff.1
      (List.Sublist.mem hrd (List.take_sublist limit _))
  refine ⟨?_, ?_, ?_, ?_, ?_, ?_⟩
  · intro rd hrd
    obtain ⟨h1, h2, h3, _⟩ := mem_searchCandidates (hmem rd hrd)
    exact ⟨h1, h2, h3⟩
  · rw [List.pairwise_map]
    exact List.Pairwise.sublist (List.take_sublist limit _) hsorted
  · intro d hd rd hrd
    exact (mem_searchCandidates (hmem rd hrd)).2.2.2 d hd
  · simp only [semantic_search]
    rw [List.length_take]
    exact min_le_left _ _
  · have hsplit := List.take_append_drop limit
      (searchSorted records query code cutoff)
    have hpw : ((searchSorted records query code cutoff).take limit ++
        (searchSorted records query code cutoff).drop limit).Pairwise distLE := by
      rw [hsplit]
      exact hsorted
    exact fun rd hrd x hx => (List.pairwise_append.1 hpw).2.2 rd hrd x hx
  · have hsplit := List.take_append_drop limit
      (searchSorted records query code cutoff)
    simp only [semantic_search]
    rw [hsplit]
    exact hperm

theorem C9_semantic_search_witness :
    (((⟨1, "t1", "a", "§ 1", "1", [0]⟩ : LegalTextRecord), (1 : Int)).1.code = "a" ∧
      ((⟨1, "t1", "a", "§ 1", "1", [0]⟩ : LegalTextRecord), (1 : Int)).1 ∈ c9records ∧
      ((⟨1, "t1", "a", "§ 1", "1", [0]⟩ : LegalTextRecord), (1 : Int)).2 =
        sqDist [1] ((⟨1, "t1", "a", "§ 1", "1", [0]⟩ : LegalTextRecord),
          (1 : Int)).1.text_vector) ∧
    (semantic_search c9records [1] "a" 1 none).length ≤ 1 :=
  ⟨(C9_semantic_search c9records [1] "a" 1 none).1 _ (by decide),
   (C9_semantic_search c9records [1] "a" 1 none).2.2.2.1⟩


end LegalMCP
